import Mathlib

/-!
Verification of the planno task planner core against its specification.

The development shallowly embeds the JavaScript source:

* calendar dates are modelled as integers counting days since 1970-01-01
  (the value of a JS Date at local midnight, divided by 86400000); a JS
  date string field that may be empty is an `Option Int`;
* timestamps (createdAt, completedAt) are integers in milliseconds;
* JS arrays are lists, JS string fields are `String`, absent/null fields
  are `Option`;
* `Array.prototype.sort` (stable since ES2019) is modelled by a stable
  insertion sort `stableSort` driven by the boolean test
  "comparator result is non-positive".
-/

namespace Planno

/-- Recurrence payload: for weekly recurrence an optional list of weekday
indices (0 = Sunday .. 6 = Saturday), mirroring the recurrenceData object. -/
structure RecurrenceData where
  weekdays : Option (List Int)
deriving DecidableEq, Repr

/-- The Task record of src/models/Task.js and the plain task objects built in
TaskController.addTask. A dueDate of none models the empty string. -/
structure Task where
  id : String
  title : String
  description : String
  category : String
  tags : List String
  priority : String
  dueDate : Option Int
  dueTime : String
  completed : Bool
  createdAt : Int
  completedAt : Option Int
  isRecurring : Bool
  recurrenceType : Option String
  recurrenceData : Option RecurrenceData
  parentRecurringId : Option String
deriving DecidableEq, Repr

/-- Category record (src/models/Category.js). -/
structure Category where
  id : String
  name : String
  color : String
deriving DecidableEq, Repr

/-- Tag record. -/
structure Tag where
  id : String
  name : String
  color : String
deriving DecidableEq, Repr

/-- Milliseconds in a day, used by the JS code when date strings are turned
into timestamps. -/
def msPerDay : Int := 86400000

/-- DateUtils.addDays on day numbers. -/
def addDays (d n : Int) : Int := d + n

/-- JS Date.prototype.getDay on a local-midnight date given as a day number:
1970-01-01 was a Thursday, so weekday = (d + 4) mod 7, always in 0..6. -/
def getDay (d : Int) : Int := Int.emod (d + 4) 7

/-- Day number of the Gregorian date y-m-d (month 1..12), the standard
civil-from-days conversion used to model JS calendar arithmetic. -/
def daysFromCivil (y m d : Int) : Int :=
  let y2 := if m ≤ 2 then y - 1 else y
  let era := Int.fdiv y2 400
  let yoe := y2 - era * 400
  let mp := Int.emod (m + 9) 12
  let doy := Int.fdiv (153 * mp + 2) 5 + d - 1
  let doe := yoe * 365 + Int.fdiv yoe 4 - Int.fdiv yoe 100 + doy
  era * 146097 + doe - 719468

/-- Inverse conversion: day number to Gregorian (year, month 1..12, day). -/
def civilFromDays (z0 : Int) : Int × Int × Int :=
  let z := z0 + 719468
  let era := Int.fdiv z 146097
  let doe := z - era * 146097
  let yoe := Int.fdiv (doe - Int.fdiv doe 1460 + Int.fdiv doe 36524 - Int.fdiv doe 146096) 365
  let y := yoe + era * 400
  let doy := doe - (365 * yoe + Int.fdiv yoe 4 - Int.fdiv yoe 100)
  let mp := Int.fdiv (5 * doy + 2) 153
  let d := doy - Int.fdiv (153 * mp + 2) 5 + 1
  let m := mp + (if mp < 10 then 3 else -9)
  (if m ≤ 2 then y + 1 else y, m, d)

/-- DateUtils.addMonths via JS setMonth semantics: keep the day of month and
renormalise, letting an overflowing day roll into the following month. -/
def addMonths (z n : Int) : Int :=
  let c := civilFromDays z
  let t := 12 * c.1 + (c.2.1 - 1) + n
  daysFromCivil (Int.fdiv t 12) (Int.emod t 12 + 1) 1 + (c.2.2 - 1)

/-- DateUtils.addYears via JS setFullYear semantics. -/
def addYears (z n : Int) : Int :=
  let c := civilFromDays z
  daysFromCivil (c.1 + n) c.2.1 1 + (c.2.2 - 1)

/-- Stable insertion of an element in front of the first place where the
boolean test succeeds. -/
def stableInsert (le : α → α → Bool) (a : α) : List α → List α
  | [] => [a]
  | b :: bs => if le a b then a :: b :: bs else b :: stableInsert le a bs

/-- Stable sort modelling Array.prototype.sort with a comparator: an element
is placed before another exactly when the comparator is non-positive. -/
def stableSort (le : α → α → Bool) : List α → List α
  | [] => []
  | a :: as => stableInsert le a (stableSort le as)

/-- DateUtils.calculateNextRecurrenceDate: next occurrence from the due date
and recurrence type, none when the due date is missing or the type is not one
of daily, weekly, monthly, yearly. -/
def calculateNextRecurrenceDate (t : Task) : Option Int :=
  match t.dueDate with
  | none => none
  | some d =>
    match t.recurrenceType with
    | none => none
    | some rt =>
      if rt = "daily" then some (addDays d 1)
      else if rt = "weekly" then
        let ws := (t.recurrenceData.bind (fun rd => rd.weekdays)).getD []
        if ws = [] then some (addDays d 7)
        else
          let currentWeekday := getDay d
          let selected := stableSort (fun a b => decide (a ≤ b)) ws
          match selected.find? (fun w => decide (currentWeekday < w)) with
          | some w => some (addDays d (w - currentWeekday))
          | none => some (addDays d (7 - currentWeekday + selected.headD 0))
      else if rt = "monthly" then some (addMonths d 1)
      else if rt = "yearly" then some (addYears d 1)
      else none

/-- The TaskFilter state read by filterTasks: status filter name, optional
category/tag filters, sort options and the completed-task retention window. -/
structure FilterState where
  currentFilter : String
  currentCategoryFilter : Option String
  currentTagFilter : Option String
  sortField : String
  sortDirection : String
  completedTasksDays : Int
deriving DecidableEq, Repr

/-- DateUtils.isTaskDueToday: same calendar day as today. -/
def isTaskDueToday (today : Int) (t : Task) : Bool :=
  match t.dueDate with
  | none => false
  | some d => d == today

/-- DateUtils.isTaskOverdue: has a due date, not completed, strictly before
today. -/
def isTaskOverdue (today : Int) (t : Task) : Bool :=
  match t.dueDate with
  | none => false
  | some d => if t.completed then false else decide (d < today)

/-- DateUtils.isTaskUpcoming: due after today and within the next 7 days. -/
def isTaskUpcoming (today : Int) (t : Task) : Bool :=
  match t.dueDate with
  | none => false
  | some d => decide (today < d) && decide (d ≤ today + 7)

/-- TaskFilter.applyStatusFilter. The switch narrows by the current status
filter; afterwards completed tasks are dropped unless the filter is exactly
the completed view. The parameter today is the current local day number and
now the current timestamp in milliseconds. -/
def applyStatusFilter (fs : FilterState) (today now : Int) (tasks : List Task) : List Task :=
  let f :=
    if fs.currentFilter = "completed" then
      let f1 := tasks.filter (fun t => t.completed)
      if fs.completedTasksDays > 0 then
        f1.filter (fun t => decide (now - fs.completedTasksDays * msPerDay ≤ t.completedAt.getD t.createdAt))
      else f1
    else if fs.currentFilter = "recurring" then tasks.filter (fun t => t.isRecurring)
    else if fs.currentFilter = "today" then tasks.filter (isTaskDueToday today)
    else if fs.currentFilter = "upcoming" then tasks.filter (isTaskUpcoming today)
    else if fs.currentFilter = "overdue" then tasks.filter (isTaskOverdue today)
    else tasks
  if fs.currentFilter ≠ "completed" then f.filter (fun t => !t.completed) else f

/-- TaskFilter.applyPriorityFilter: when the current status filter is one of
the three priority names, keep only the tasks with that priority. -/
def applyPriorityFilter (fs : FilterState) (tasks : List Task) : List Task :=
  if fs.currentFilter == "low" || fs.currentFilter == "medium" || fs.currentFilter == "high" then
    tasks.filter (fun t => t.priority == fs.currentFilter)
  else tasks

/-- Boolean test for a contiguous subsequence, modelling String.includes. -/
def containsSeq [BEq α] (needle : List α) : List α → Bool
  | [] => needle.isEmpty
  | a :: as => needle.isPrefixOf (a :: as) || containsSeq needle as

/-- JS String.prototype.includes on the underlying character lists. -/
def strIncludes (s sub : String) : Bool := containsSeq sub.data s.data

/-- TaskFilter.matchesSearchTerm: case-insensitive match against the title,
the description, the resolved category name, and the resolved tag names. -/
def matchesSearchTerm (cats : List Category) (tags : List Tag) (searchTerm : String) (t : Task) : Bool :=
  let term := searchTerm.toLower
  let titleMatch := strIncludes t.title.toLower term
  let descriptionMatch := strIncludes t.description.toLower term
  let categoryMatch :=
    match cats.find? (fun c => c.id == t.category) with
    | some c => strIncludes c.name.toLower term
    | none => false
  let tagMatch :=
    (t.tags.filterMap (fun tagId => tags.find? (fun tg => tg.id == tagId))).any
      (fun tg => strIncludes tg.name.toLower term)
  titleMatch || descriptionMatch || categoryMatch || tagMatch

/-- Numeric priority used by the sort comparator: high 3, medium 2, low 1,
anything else 0. -/
def priorityOrder (p : String) : Int :=
  if p = "high" then 3 else if p = "medium" then 2 else if p = "low" then 1 else 0

/-- Sort key for the category field: resolved category name lowercased, or
the empty string when the category id resolves to nothing. -/
def categoryNameKey (cats : List Category) (t : Task) : String :=
  match cats.find? (fun c => c.id == t.category) with
  | some c => c.name.toLower
  | none => ""

/-- Sort key for the tags field: resolved lowercased tag names, sorted with
the default string sort and comma-joined. -/
def tagsKey (tags : List Tag) (t : Task) : String :=
  String.intercalate ","
    (stableSort (fun a b => decide (a ≤ b))
      (t.tags.map (fun tagId =>
        match tags.find? (fun tg => tg.id == tagId) with
        | some tg => tg.name.toLower
        | none => "")))

/-- Sort key for the dueDate field: timestamp of the due date, 0 (the epoch)
when missing. -/
def dueDateKey (t : Task) : Int :=
  match t.dueDate with
  | some d => d * msPerDay
  | none => 0

/-- The comparator body of TaskFilter.sortTasks after the key values have
been computed: negative when the first key sorts first, with the sign flipped
by the descending direction. -/
def cmpRes [LinearOrder κ] (dir : String) (x y : κ) : Int :=
  if x < y then (if dir = "asc" then -1 else 1)
  else if y < x then (if dir = "asc" then 1 else -1)
  else 0

/-- Sorting a list by a key through the comparator. -/
def sortByKey [LinearOrder κ] (dir : String) (k : α → κ) (l : List α) : List α :=
  stableSort (fun a b => decide (cmpRes dir (k a) (k b) ≤ 0)) l

/-- TaskFilter.sortTasks: the switch on the sort field selects the key; an
unmapped field falls back to createdAt. -/
def sortTasks (field dir : String) (cats : List Category) (tags : List Tag) (tasks : List Task) : List Task :=
  if field = "title" then sortByKey dir (fun t => t.title.toLower) tasks
  else if field = "priority" then sortByKey dir (fun t => priorityOrder t.priority) tasks
  else if field = "status" then sortByKey dir (fun t => (if t.completed then 1 else 0 : Int)) tasks
  else if field = "category" then sortByKey dir (categoryNameKey cats) tasks
  else if field = "tags" then sortByKey dir (tagsKey tags) tasks
  else if field = "dueDate" then sortByKey dir dueDateKey tasks
  else sortByKey dir Task.createdAt tasks

/-- A sort key value: a string or a number, as produced by the comparator
switch of TaskFilter.sortTasks. -/
inductive SVal where
  | str (s : String)
  | num (n : Int)
deriving DecidableEq, Repr

/-- The key value the comparator computes for a task under a given sort
field, following the same switch as sortTasks. -/
def sortKey (field : String) (cats : List Category) (tags : List Tag) (t : Task) : SVal :=
  if field = "title" then .str t.title.toLower
  else if field = "priority" then .num (priorityOrder t.priority)
  else if field = "status" then .num (if t.completed then 1 else 0)
  else if field = "category" then .str (categoryNameKey cats t)
  else if field = "tags" then .str (tagsKey tags t)
  else if field = "dueDate" then .num (dueDateKey t)
  else .num t.createdAt

/-- The category member of the activeFilters list: when a category filter is
set, keep only tasks of that category. -/
def applyCategoryFilter (fs : FilterState) (tasks : List Task) : List Task :=
  match fs.currentCategoryFilter with
  | some c => tasks.filter (fun t => t.category == c)
  | none => tasks

/-- The tag member of the activeFilters list: when a tag filter is set, keep
only tasks carrying that tag. -/
def applyTagFilter (fs : FilterState) (tasks : List Task) : List Task :=
  match fs.currentTagFilter with
  | some tg => tasks.filter (fun t => t.tags.contains tg)
  | none => tasks

/-- The search member of the activeFilters list: active only for a non-empty
search term. -/
def applySearchFilter (cats : List Category) (tags : List Tag) (searchTerm : String) (tasks : List Task) : List Task :=
  if searchTerm ≠ "" then tasks.filter (matchesSearchTerm cats tags searchTerm) else tasks

/-- TaskFilter.filterTasks: status filter, then priority filter, then the
AND-composed category, tag and search filters, then the sort. -/
def filterTasks (fs : FilterState) (today now : Int) (tasks : List Task) (cats : List Category) (tags : List Tag) (searchTerm : String) : List Task :=
  sortTasks fs.sortField fs.sortDirection cats tags
    (applySearchFilter cats tags searchTerm
      (applyTagFilter fs
        (applyCategoryFilter fs
          (applyPriorityFilter fs
            (applyStatusFilter fs today now tasks)))))

/-- Tag lists are compared after a default string sort, modelling the
JSON.stringify comparison of sorted tag arrays in hasTaskChanged. -/
def sortTags (l : List String) : List String :=
  stableSort (fun a b => decide (a ≤ b)) l

/-- RenderController.hasTaskChanged: true when any tracked field differs;
tags are compared as sorted lists, recurrenceData structurally. -/
def hasTaskChanged (cur last : Task) : Bool :=
  cur.title != last.title ||
  cur.description != last.description ||
  cur.completed != last.completed ||
  cur.priority != last.priority ||
  cur.category != last.category ||
  sortTags cur.tags != sortTags last.tags ||
  cur.dueDate != last.dueDate ||
  cur.dueTime != last.dueTime ||
  cur.isRecurring != last.isRecurring ||
  cur.recurrenceType != last.recurrenceType ||
  cur.recurrenceData != last.recurrenceData

/-- Lookup of a task by id, modelling map access keyed by task id. -/
def findById (l : List Task) (i : String) : Option Task :=
  l.find? (fun t => t.id == i)

/-- The diff computed inside RenderController.renderTasks before incremental
updates are applied: added tasks, modified tasks and removed ids. -/
def computeTaskDiff (prev curr : List Task) : List Task × List Task × List String :=
  (curr.filter (fun t => (findById prev t.id).isNone),
   curr.filter (fun t =>
     match findById prev t.id with
     | some lastTask => hasTaskChanged t lastTask
     | none => false),
   (prev.filter (fun p => (findById curr p.id).isNone)).map (fun p => p.id))

/-- What the render pass does to the view: show the empty state, apply an
incremental patch, or rebuild the whole view from the given list. -/
inductive RenderAction where
  | emptyState
  | incremental (added modified : List Task) (removedIds : List String)
  | fullRender (source : List Task)
deriving DecidableEq, Repr

/-- RenderController.applyIncrementalUpdates with its internal try/catch: a
throw during patching is caught locally and falls back to a full render of
only the added and modified tasks. The applyThrows flag stands for a DOM
exception inside the try block. -/
def applyIncrementalUpdates (applyThrows : Bool) (added modified : List Task) (removedIds : List String) : RenderAction :=
  if applyThrows then .fullRender (added ++ modified) else .incremental added modified removedIds

/-- RenderController.renderTasks on the path where the list element exists:
empty input clears the view and the cache; otherwise the diff is computed and
applied and the cache becomes the current map. The diffThrows flag stands for
an exception during diff computation, caught by the outer handler which does a
full render from the whole input and clears the cache. Because the inner
handler of applyIncrementalUpdates swallows patch exceptions, the outer
handler does not run for them and the cache is still updated. The result is
the action performed on the view and the snapshot cache afterwards. -/
def renderTasks (diffThrows applyThrows : Bool) (cache tasks : List Task) : RenderAction × List Task :=
  if tasks.isEmpty then (.emptyState, [])
  else if diffThrows then (.fullRender tasks, [])
  else
    let d := computeTaskDiff cache tasks
    (applyIncrementalUpdates applyThrows d.1 d.2.1 d.2.2, tasks)

/-- Partial task data passed to TaskController.addTask and updateTask: every
field may be absent. An explicit id field may be present and is ignored by
updateTask. -/
structure TaskData where
  id : Option String := none
  title : Option String := none
  description : Option String := none
  category : Option String := none
  tags : Option (List String) := none
  priority : Option String := none
  dueDate : Option (Option Int) := none
  dueTime : Option String := none
  completed : Option Bool := none
  createdAt : Option Int := none
  completedAt : Option (Option Int) := none
  isRecurring : Option Bool := none
  recurrenceType : Option (Option String) := none
  recurrenceData : Option (Option RecurrenceData) := none
  parentRecurringId : Option (Option String) := none
deriving DecidableEq, Repr

/-- The spread merge of TaskController.updateTask: fields present in the
incoming data overwrite the stored task, and the id is forced back to the
target id afterwards, so an id inside the data never survives. -/
def mergeTask (old : Task) (d : TaskData) (taskId : String) : Task :=
  { id := taskId,
    title := d.title.getD old.title,
    description := d.description.getD old.description,
    category := d.category.getD old.category,
    tags := d.tags.getD old.tags,
    priority := d.priority.getD old.priority,
    dueDate := d.dueDate.getD old.dueDate,
    dueTime := d.dueTime.getD old.dueTime,
    completed := d.completed.getD old.completed,
    createdAt := d.createdAt.getD old.createdAt,
    completedAt := d.completedAt.getD old.completedAt,
    isRecurring := d.isRecurring.getD old.isRecurring,
    recurrenceType := d.recurrenceType.getD old.recurrenceType,
    recurrenceData := d.recurrenceData.getD old.recurrenceData,
    parentRecurringId := d.parentRecurringId.getD old.parentRecurringId }

/-- Replace the first task with the given id by the merged task; none when no
task has the id, modelling findIndex returning -1. -/
def updateTaskGo (taskId : String) (d : TaskData) : List Task → Option (List Task)
  | [] => none
  | t :: ts =>
    if t.id = taskId then some (mergeTask t d taskId :: ts)
    else (updateTaskGo taskId d ts).map (fun l => t :: l)

/-- TaskController.updateTask: returns whether a task was updated together
with the resulting task list. -/
def updateTask (tasks : List Task) (taskId : String) (d : TaskData) : Bool × List Task :=
  match updateTaskGo taskId d tasks with
  | some l => (true, l)
  | none => (false, tasks)

/-- The task object literal built by TaskController.addTask, with defaults
for absent fields; the fresh id and creation timestamp are parameters. -/
def buildTask (d : TaskData) (newId : String) (createdAt : Int) : Task :=
  { id := newId,
    title := d.title.getD "",
    description := d.description.getD "",
    category := d.category.getD "personal",
    tags := d.tags.getD [],
    priority := d.priority.getD "medium",
    dueDate := d.dueDate.getD none,
    dueTime := d.dueTime.getD "",
    completed := d.completed.getD false,
    createdAt := createdAt,
    completedAt := none,
    isRecurring := d.isRecurring.getD false,
    recurrenceType := d.recurrenceType.getD none,
    recurrenceData := d.recurrenceData.getD none,
    parentRecurringId := d.parentRecurringId.getD none }

/-- TaskController.addTask: rejects a blank title, otherwise appends the
built task. -/
def addTask (tasks : List Task) (d : TaskData) (newId : String) (createdAt : Int) : Bool × List Task :=
  let task := buildTask d newId createdAt
  if task.title.trim = "" then (false, tasks)
  else (true, tasks ++ [task])

/-- Task.addTag: appends the tag only when it is not present yet and fewer
than 3 tags are attached; reports whether the tag was added. -/
def addTag (t : Task) (tagId : String) : Task × Bool :=
  if t.tags.contains tagId = false ∧ t.tags.length < 3 then
    ({ t with tags := t.tags ++ [tagId] }, true)
  else (t, false)

/-- ValidationUtils.validateTask on the embedded task model. The date and
time format checks of the source operate on raw strings and are vacuous here
because dates are already parsed in the model; the remaining checks are the
title requirement and bounds, the description bound, the tag-count bound and
the recurring-needs-due-date rule. -/
def validateTaskErrors (t : Task) : List String :=
  (if t.title.trim = "" then ["Título da tarefa é obrigatório."] else []) ++
  (if t.title ≠ "" ∧ 100 < t.title.trim.length then
    ["Título da tarefa deve ter no máximo 100 caracteres."] else []) ++
  (if t.description ≠ "" ∧ 500 < t.description.trim.length then
    ["Descrição deve ter no máximo 500 caracteres."] else []) ++
  (if 3 < t.tags.length then
    ["Você pode selecionar no máximo 3 tags por tarefa."] else []) ++
  (if t.isRecurring = true ∧ t.dueDate = none then
    ["Tarefas recorrentes precisam de uma data de vencimento."] else [])

/-- Structured validation result, valid exactly when no error was collected. -/
def validateTask (t : Task) : Bool × List String :=
  ((validateTaskErrors t).isEmpty, validateTaskErrors t)

/-- The existing-future-child check of checkAndGenerateRecurringTasks: some
task in the store is a child of the root and is due strictly after today. A
missing due date compares as the epoch, following the JS null coercion. -/
def hasNextOccurrence (store : List Task) (today : Int) (rootId : String) : Bool :=
  store.any (fun t => t.parentRecurringId == some rootId && decide (today < t.dueDate.getD 0))

/-- TaskController.generateNextRecurringTask: none when the recurrence date
cannot be computed, otherwise the child task cloned from the parent with the
fresh id, the next due date, completed reset and the parent back-reference. -/
def generateNextRecurringTask (parent : Task) (newId : String) (createdAt : Int) : Option Task :=
  (calculateNextRecurrenceDate parent).map (fun nd =>
    { parent with
      id := newId, dueDate := some nd, completed := false,
      createdAt := createdAt, parentRecurringId := some parent.id })

/-- One forEach step of the recurring-task pass: the first list is the
remaining original elements still to visit and acc is the store so far; appended
children are never visited, matching forEach on a growing array. -/
def recurringPassGo (today : Int) (freshIds : Nat → String) (createdAtNow : Int) : List Task → List Task → Nat → List Task
  | [], acc, _ => acc
  | r :: rest, acc, n =>
    if r.isRecurring = true ∧ r.parentRecurringId = none then
      if (r.completed = true ∧ r.dueDate.getD 0 ≤ today) ∨ (r.completed = false ∧ r.dueDate.getD 0 < today) then
        if hasNextOccurrence acc today r.id then
          recurringPassGo today freshIds createdAtNow rest acc n
        else
          match generateNextRecurringTask r (freshIds n) createdAtNow with
          | some nt => recurringPassGo today freshIds createdAtNow rest (acc ++ [nt]) (n + 1)
          | none => recurringPassGo today freshIds createdAtNow rest acc n
      else recurringPassGo today freshIds createdAtNow rest acc n
    else recurringPassGo today freshIds createdAtNow rest acc n

/-- TaskController.checkAndGenerateRecurringTasks: run the pass over the
store, appending at most one child per visited root. freshIds supplies the
generated ids in order. -/
def checkAndGenerateRecurringTasks (today : Int) (freshIds : Nat → String) (createdAtNow : Int) (store : List Task) : List Task :=
  recurringPassGo today freshIds createdAtNow store store 0

/-- Inserting with stableInsert permutes consing. -/
theorem stableInsert_perm (le : α → α → Bool) (a : α) (l : List α) :
    (stableInsert le a l).Perm (a :: l) := by
  induction l with
  | nil => simp [stableInsert]
  | cons b bs ih =>
    unfold stableInsert
    by_cases h : le a b
    · simp [h]
    · simp only [h, Bool.false_eq_true, if_false]
      exact (ih.cons b).trans (List.Perm.swap a b bs)

/-- The stable sort is a permutation of its input. -/
theorem stableSort_perm (le : α → α → Bool) (l : List α) :
    (stableSort le l).Perm l := by
  induction l with
  | nil => simp [stableSort]
  | cons a as ih =>
    exact (stableInsert_perm le a (stableSort le as)).trans (ih.cons a)

/-- Membership in the stable sort is membership in the input. -/
theorem mem_stableSort (le : α → α → Bool) (l : List α) (x : α) :
    x ∈ stableSort le l ↔ x ∈ l :=
  (stableSort_perm le l).mem_iff

/-- Membership after a stable insertion. -/
theorem mem_stableInsert (le : α → α → Bool) (a : α) (l : List α) (x : α) :
    x ∈ stableInsert le a l ↔ x = a ∨ x ∈ l := by
  rw [(stableInsert_perm le a l).mem_iff, List.mem_cons]

/-- Inserting keeps a list pairwise ordered, for any boolean relation that is
total and transitive. -/
theorem pairwise_stableInsert (le : α → α → Bool)
    (htot : ∀ a b, le a b = false → le b a = true)
    (htrans : ∀ a b c, le a b = true → le b c = true → le a c = true)
    (a : α) (l : List α) (h : l.Pairwise (fun x y => le x y = true)) :
    (stableInsert le a l).Pairwise (fun x y => le x y = true) := by
  induction l with
  | nil => simp [stableInsert]
  | cons b bs ih =>
    rcases List.pairwise_cons.mp h with ⟨hb, hbs⟩
    unfold stableInsert
    by_cases hab : le a b
    · simp only [hab, if_true]
      refine List.pairwise_cons.mpr ⟨?_, h⟩
      intro x hx
      rcases List.mem_cons.mp hx with rfl | hx
      · exact hab
      · exact htrans a b x hab (hb x hx)
    · have hba : le b a = true := htot a b (Bool.not_eq_true (le a b) ▸ hab)
      simp only [hab, Bool.false_eq_true, if_false]
      refine List.pairwise_cons.mpr ⟨?_, ih hbs⟩
      intro x hx
      rcases (mem_stableInsert le a bs x).mp hx with rfl | hx
      · exact hba
      · exact hb x hx

/-- The stable sort is pairwise ordered, for any boolean relation that is
total and transitive. -/
theorem pairwise_stableSort (le : α → α → Bool)
    (htot : ∀ a b, le a b = false → le b a = true)
    (htrans : ∀ a b c, le a b = true → le b c = true → le a c = true)
    (l : List α) :
    (stableSort le l).Pairwise (fun x y => le x y = true) := by
  induction l with
  | nil => simp [stableSort]
  | cons a as ih => exact pairwise_stableInsert le htot htrans a (stableSort le as) ih

/-- Two pairwise ordered permutations of each other are equal, when the
relation is antisymmetric on the members of the first list. -/
theorem eq_of_perm_of_pairwise (le : α → α → Bool) :
    ∀ (l₁ l₂ : List α), l₁.Perm l₂ →
    l₁.Pairwise (fun x y => le x y = true) →
    l₂.Pairwise (fun x y => le x y = true) →
    (∀ a ∈ l₁, ∀ b ∈ l₁, le a b = true → le b a = true → a = b) →
    l₁ = l₂
  | [], l₂, hp, _, _, _ => (hp.symm.eq_nil).symm
  | a :: t₁, [], hp, _, _, _ => absurd hp.eq_nil (by simp)
  | a :: t₁, b :: t₂, hp, h₁, h₂, hinj => by
    rcases List.pairwise_cons.mp h₁ with ⟨ha1, ht₁⟩
    rcases List.pairwise_cons.mp h₂ with ⟨hb2, ht₂⟩
    have hbmem : b ∈ a :: t₁ := hp.mem_iff.mpr (List.mem_cons_self b t₂)
    have hamem2 : a ∈ b :: t₂ := hp.mem_iff.mp (List.mem_cons_self a t₁)
    have hab : a = b := by
      rcases List.mem_cons.mp hbmem with rfl | hbt₁
      · rfl
      · rcases List.mem_cons.mp hamem2 with h | hat₂
        · exact h.symm ▸ rfl
        · exact hinj a (List.mem_cons_self a t₁) b hbmem (ha1 b hbt₁) (hb2 a hat₂)
    subst hab
    have htl : t₁.Perm t₂ := hp.cons_inv
    have : t₁ = t₂ :=
      eq_of_perm_of_pairwise le t₁ t₂ htl ht₁ ht₂ (fun x hx y hy => hinj x
        (List.mem_cons_of_mem a hx) y (List.mem_cons_of_mem a hy))
    rw [this]

/-- Sorting with the flipped relation and reversing gives the original sort,
provided no two list members tie under the relation. -/
theorem stableSort_flip_reverse (le le2 : α → α → Bool)
    (hflip : ∀ a b, le2 a b = le b a)
    (htot : ∀ a b, le a b = false → le b a = true)
    (htrans : ∀ a b c, le a b = true → le b c = true → le a c = true)
    (l : List α)
    (hinj : ∀ a ∈ l, ∀ b ∈ l, le a b = true → le b a = true → a = b) :
    stableSort le l = (stableSort le2 l).reverse := by
  have hle2 : le2 = fun a b => le b a := by
    funext a b
    exact hflip a b
  subst hle2
  have htot2 : ∀ a b, (fun x y => le y x) a b = false → (fun x y => le y x) b a = true := by
    intro a b h
    exact htot b a h
  have htrans2 : ∀ a b c, (fun x y => le y x) a b = true → (fun x y => le y x) b c = true →
      (fun x y => le y x) a c = true := by
    intro a b c h1 h2
    exact htrans c b a h2 h1
  have hp1 : (stableSort le l).Pairwise (fun x y => le x y = true) :=
    pairwise_stableSort le htot htrans l
  have hp2raw : (stableSort (fun x y => le y x) l).Pairwise (fun x y => le y x = true) :=
    pairwise_stableSort (fun x y => le y x) htot2 htrans2 l
  have hp2 : ((stableSort (fun x y => le y x) l).reverse).Pairwise (fun x y => le x y = true) :=
    List.pairwise_reverse.mpr hp2raw
  have hperm : (stableSort le l).Perm ((stableSort (fun x y => le y x) l).reverse) :=
    (stableSort_perm le l).trans
      (((List.reverse_perm (stableSort (fun x y => le y x) l)).trans
        (stableSort_perm (fun x y => le y x) l)).symm)
  refine eq_of_perm_of_pairwise le _ _ hperm hp1 hp2 ?_
  intro a ha b hb h1 h2
  exact hinj a ((mem_stableSort le l a).mp ha) b ((mem_stableSort le l b).mp hb) h1 h2

/-- The ascending comparator accepts a pair exactly when the first key is not
greater. -/
theorem cmpRes_asc_le [LinearOrder κ] (x y : κ) : cmpRes "asc" x y ≤ 0 ↔ x ≤ y := by
  unfold cmpRes
  rcases lt_trichotomy x y with h | h | h
  · simp [h, le_of_lt h, not_lt_of_lt h]
  · simp [h, lt_irrefl]
  · simp [h, not_lt_of_lt h, not_le_of_lt h]

/-- The descending comparator accepts a pair exactly when the second key is
not greater. -/
theorem cmpRes_desc_le [LinearOrder κ] (x y : κ) : cmpRes "desc" x y ≤ 0 ↔ y ≤ x := by
  unfold cmpRes
  rcases lt_trichotomy x y with h | h | h
  · simp [h, not_lt_of_lt h, not_le_of_lt h]
  · simp [h, lt_irrefl, le_of_eq h.symm]
  · simp [h, le_of_lt h, not_lt_of_lt h]

/-- Sorting by key ascending then descending yields exactly reversed lists
when no two list members share a key. -/
theorem sortByKey_asc_eq_reverse_desc [LinearOrder κ] (k : α → κ) (l : List α)
    (hinj : ∀ a ∈ l, ∀ b ∈ l, k a = k b → a = b) :
    sortByKey "asc" k l = (sortByKey "desc" k l).reverse := by
  unfold sortByKey
  refine stableSort_flip_reverse _ _ ?_ ?_ ?_ l ?_
  · intro a b
    rw [decide_eq_decide]
    rw [cmpRes_desc_le, cmpRes_asc_le]
  · intro a b h
    have : ¬ (k a ≤ k b) := by
      intro hle
      rw [decide_eq_true (cmpRes_asc_le (k a) (k b) |>.mpr hle)] at h
      exact Bool.true_eq_false.mp h
    exact decide_eq_true ((cmpRes_asc_le (k b) (k a)).mpr (le_of_not_le this))
  · intro a b c h1 h2
    have h1le : k a ≤ k b := (cmpRes_asc_le (k a) (k b)).mp (of_decide_eq_true h1)
    have h2le : k b ≤ k c := (cmpRes_asc_le (k b) (k c)).mp (of_decide_eq_true h2)
    exact decide_eq_true ((cmpRes_asc_le (k a) (k c)).mpr (le_trans h1le h2le))
  · intro a ha b hb h1 h2
    have h1le : k a ≤ k b := (cmpRes_asc_le (k a) (k b)).mp (of_decide_eq_true h1)
    have h2le : k b ≤ k a := (cmpRes_asc_le (k b) (k a)).mp (of_decide_eq_true h2)
    exact hinj a ha b hb (le_antisymm h1le h2le)

/-- A function that is pairwise distinct on a list is injective on its
members. -/
theorem inj_of_pairwise_ne (f : α → β) : ∀ (l : List α),
    l.Pairwise (fun a b => f a ≠ f b) →
    ∀ a ∈ l, ∀ b ∈ l, f a = f b → a = b := by
  intro l
  induction l with
  | nil =>
    intro _ a ha
    exact absurd ha (by simp)
  | cons x xs ih =>
    intro hp a ha b hb heq
    rcases List.pairwise_cons.mp hp with ⟨hx, hxs⟩
    rcases List.mem_cons.mp ha with rfl | ha2
    · rcases List.mem_cons.mp hb with rfl | hb2
      · rfl
      · exact absurd heq (hx b hb2)
    · rcases List.mem_cons.mp hb with rfl | hb2
      · exact absurd heq.symm (hx a ha2)
      · exact ih hxs a ha2 b hb2 heq

/-- The task sort is a permutation of its input for every field and
direction. -/
theorem sortTasks_perm (field dir : String) (cats : List Category) (tags : List Tag) (l : List Task) :
    (sortTasks field dir cats tags l).Perm l := by
  unfold sortTasks sortByKey
  split_ifs <;> exact stableSort_perm _ _

/-- Branch equation for the title sort key. -/
theorem sortKey_title_eq (cats : List Category) (tags : List Tag) (t : Task) :
    sortKey "title" cats tags t = SVal.str t.title.toLower := rfl

/-- Branch equation for the priority sort key. -/
theorem sortKey_priority_eq (cats : List Category) (tags : List Tag) (t : Task) :
    sortKey "priority" cats tags t = SVal.num (priorityOrder t.priority) := rfl

/-- Branch equation for the status sort key. -/
theorem sortKey_status_eq (cats : List Category) (tags : List Tag) (t : Task) :
    sortKey "status" cats tags t = SVal.num (if t.completed then 1 else 0) := rfl

/-- Branch equation for the category sort key. -/
theorem sortKey_category_eq (cats : List Category) (tags : List Tag) (t : Task) :
    sortKey "category" cats tags t = SVal.str (categoryNameKey cats t) := rfl

/-- Branch equation for the tags sort key. -/
theorem sortKey_tags_eq (cats : List Category) (tags : List Tag) (t : Task) :
    sortKey "tags" cats tags t = SVal.str (tagsKey tags t) := rfl

/-- Branch equation for the dueDate sort key. -/
theorem sortKey_dueDate_eq (cats : List Category) (tags : List Tag) (t : Task) :
    sortKey "dueDate" cats tags t = SVal.num (dueDateKey t) := rfl

/-- Branch equation for the title sort. -/
theorem sortTasks_title_eq (dir : String) (cats : List Category) (tags : List Tag) (l : List Task) :
    sortTasks "title" dir cats tags l = sortByKey dir (fun t => t.title.toLower) l := rfl

/-- Branch equation for the priority sort. -/
theorem sortTasks_priority_eq (dir : String) (cats : List Category) (tags : List Tag) (l : List Task) :
    sortTasks "priority" dir cats tags l = sortByKey dir (fun t => priorityOrder t.priority) l := rfl

/-- Branch equation for the status sort. -/
theorem sortTasks_status_eq (dir : String) (cats : List Category) (tags : List Tag) (l : List Task) :
    sortTasks "status" dir cats tags l = sortByKey dir (fun t : Task => (if t.completed then 1 else 0 : Int)) l := rfl

/-- Branch equation for the category sort. -/
theorem sortTasks_category_eq (dir : String) (cats : List Category) (tags : List Tag) (l : List Task) :
    sortTasks "category" dir cats tags l = sortByKey dir (categoryNameKey cats) l := rfl

/-- Branch equation for the tags sort. -/
theorem sortTasks_tags_eq (dir : String) (cats : List Category) (tags : List Tag) (l : List Task) :
    sortTasks "tags" dir cats tags l = sortByKey dir (tagsKey tags) l := rfl

/-- Branch equation for the dueDate sort. -/
theorem sortTasks_dueDate_eq (dir : String) (cats : List Category) (tags : List Tag) (l : List Task) :
    sortTasks "dueDate" dir cats tags l = sortByKey dir dueDateKey l := rfl

/-- C8: for every sort field, on a list where no two tasks share the sort
key of that field, sorting ascending and sorting descending produce exactly
reversed orderings. -/
theorem sortTasks_asc_eq_reverse_desc (field : String) (cats : List Category) (tags : List Tag) (l : List Task)
    (hkeys : l.Pairwise (fun a b => sortKey field cats tags a ≠ sortKey field cats tags b)) :
    sortTasks field "asc" cats tags l = (sortTasks field "desc" cats tags l).reverse := by
  by_cases h1 : field = "title"
  · subst h1
    simp only [sortTasks_title_eq]
    refine sortByKey_asc_eq_reverse_desc _ l ?_
    intro a ha b hb heq
    refine inj_of_pairwise_ne (sortKey "title" cats tags) l hkeys a ha b hb ?_
    rw [sortKey_title_eq, sortKey_title_eq, heq]
  by_cases h2 : field = "priority"
  · subst h2
    simp only [sortTasks_priority_eq]
    refine sortByKey_asc_eq_reverse_desc _ l ?_
    intro a ha b hb heq
    refine inj_of_pairwise_ne (sortKey "priority" cats tags) l hkeys a ha b hb ?_
    rw [sortKey_priority_eq, sortKey_priority_eq, heq]
  by_cases h3 : field = "status"
  · subst h3
    simp only [sortTasks_status_eq]
    refine sortByKey_asc_eq_reverse_desc _ l ?_
    intro a ha b hb heq
    refine inj_of_pairwise_ne (sortKey "status" cats tags) l hkeys a ha b hb ?_
    rw [sortKey_status_eq, sortKey_status_eq, heq]
  by_cases h4 : field = "category"
  · subst h4
    simp only [sortTasks_category_eq]
    refine sortByKey_asc_eq_reverse_desc _ l ?_
    intro a ha b hb heq
    refine inj_of_pairwise_ne (sortKey "category" cats tags) l hkeys a ha b hb ?_
    rw [sortKey_category_eq, sortKey_category_eq, heq]
  by_cases h5 : field = "tags"
  · subst h5
    simp only [sortTasks_tags_eq]
    refine sortByKey_asc_eq_reverse_desc _ l ?_
    intro a ha b hb heq
    refine inj_of_pairwise_ne (sortKey "tags" cats tags) l hkeys a ha b hb ?_
    rw [sortKey_tags_eq, sortKey_tags_eq, heq]
  by_cases h6 : field = "dueDate"
  · subst h6
    simp only [sortTasks_dueDate_eq]
    refine sortByKey_asc_eq_reverse_desc _ l ?_
    intro a ha b hb heq
    refine inj_of_pairwise_ne (sortKey "dueDate" cats tags) l hkeys a ha b hb ?_
    rw [sortKey_dueDate_eq, sortKey_dueDate_eq, heq]
  · simp only [sortKey, if_neg h1, if_neg h2, if_neg h3, if_neg h4, if_neg h5, if_neg h6,
      ne_eq, SVal.num.injEq] at hkeys
    simp only [sortTasks, if_neg h1, if_neg h2, if_neg h3, if_neg h4, if_neg h5, if_neg h6]
    exact sortByKey_asc_eq_reverse_desc _ l (fun a ha b hb heq =>
      inj_of_pairwise_ne _ l hkeys a ha b hb heq)

/-- A concrete task used as a base value by the concrete instances below. -/
def baseTask : Task :=
  { id := "t1", title := "Task one", description := "", category := "personal",
    tags := [], priority := "medium", dueDate := none, dueTime := "",
    completed := false, createdAt := 0, completedAt := none, isRecurring := false,
    recurrenceType := none, recurrenceData := none, parentRecurringId := none }

/-- Every member of the priority filter output comes from its input. -/
theorem mem_of_applyPriorityFilter (fs : FilterState) (l : List Task) (t : Task)
    (h : t ∈ applyPriorityFilter fs l) : t ∈ l := by
  unfold applyPriorityFilter at h
  split at h
  · exact (List.mem_filter.mp h).1
  · exact h

/-- Every member of the category filter output comes from its input. -/
theorem mem_of_applyCategoryFilter (fs : FilterState) (l : List Task) (t : Task)
    (h : t ∈ applyCategoryFilter fs l) : t ∈ l := by
  unfold applyCategoryFilter at h
  split at h
  · exact (List.mem_filter.mp h).1
  · exact h

/-- Every member of the tag filter output comes from its input. -/
theorem mem_of_applyTagFilter (fs : FilterState) (l : List Task) (t : Task)
    (h : t ∈ applyTagFilter fs l) : t ∈ l := by
  unfold applyTagFilter at h
  split at h
  · exact (List.mem_filter.mp h).1
  · exact h

/-- Every member of the search filter output comes from its input. -/
theorem mem_of_applySearchFilter (cats : List Category) (tags : List Tag) (searchTerm : String) (l : List Task) (t : Task)
    (h : t ∈ applySearchFilter cats tags searchTerm l) : t ∈ l := by
  unfold applySearchFilter at h
  split at h
  · exact (List.mem_filter.mp h).1
  · exact h

/-- Unless the status filter is the completed view, the status filter output
contains no completed task. -/
theorem applyStatusFilter_hides_completed (fs : FilterState) (today now : Int) (tasks : List Task)
    (h : fs.currentFilter ≠ "completed") :
    ∀ t ∈ applyStatusFilter fs today now tasks, t.completed = false := by
  intro t ht
  simp only [applyStatusFilter] at ht
  rw [if_pos h] at ht
  have := (List.mem_filter.mp ht).2
  simpa using this

/-- C1: whenever the status filter is not the completed view, the filter
pipeline output contains no completed task, whatever the category, tag,
priority and search filters are. -/
theorem filterTasks_hides_completed (fs : FilterState) (today now : Int)
    (tasks : List Task) (cats : List Category) (tags : List Tag) (searchTerm : String)
    (h : fs.currentFilter ≠ "completed") :
    ∀ t ∈ filterTasks fs today now tasks cats tags searchTerm, t.completed = false := by
  intro t ht
  unfold filterTasks at ht
  rw [(sortTasks_perm _ _ _ _ _).mem_iff] at ht
  exact applyStatusFilter_hides_completed fs today now tasks h t
    (mem_of_applyPriorityFilter fs _ t
      (mem_of_applyCategoryFilter fs _ t
        (mem_of_applyTagFilter fs _ t
          (mem_of_applySearchFilter cats tags searchTerm _ t ht))))

/-- A concrete filter state with the all view, used by witnesses. -/
def fsAllWit : FilterState :=
  { currentFilter := "all", currentCategoryFilter := none, currentTagFilter := none,
    sortField := "createdAt", sortDirection := "desc", completedTasksDays := 30 }

/-- Witness for C1: a concrete mixed list under the all view yields only
uncompleted tasks. -/
theorem filterTasks_hides_completed_witness :
    fsAllWit.currentFilter ≠ "completed" ∧
    (filterTasks fsAllWit 10 0
      [{ baseTask with completed := true }, { baseTask with id := "t2", createdAt := 1 }]
      [] [] "").all (fun t => !t.completed) = true := by
  refine ⟨by decide, ?_⟩
  rw [List.all_eq_true]
  intro t ht
  have h := filterTasks_hides_completed fsAllWit 10 0
    [{ baseTask with completed := true }, { baseTask with id := "t2", createdAt := 1 }]
    [] [] "" (by decide) t ht
  simp [h]

/-- C6: under the completed view, membership in the status filter output is
exactly completion plus, when the retention window is positive, a completion
timestamp no older than the window; with a window of 0 no cutoff applies. The
timestamp is completedAt, or createdAt when completedAt is absent. -/
theorem applyStatusFilter_completed_mem (fs : FilterState) (today now : Int) (tasks : List Task)
    (hf : fs.currentFilter = "completed") (t : Task) :
    t ∈ applyStatusFilter fs today now tasks ↔
      t ∈ tasks ∧ t.completed = true ∧
      (0 < fs.completedTasksDays →
        now - fs.completedTasksDays * msPerDay ≤ t.completedAt.getD t.createdAt) := by
  simp only [applyStatusFilter, hf, ne_eq, not_true_eq_false, if_false, ite_true,
    eq_self_iff_true, if_true]
  by_cases hd : fs.completedTasksDays > 0
  · rw [if_pos hd]
    simp only [List.mem_filter, decide_eq_true_eq]
    constructor
    · rintro ⟨⟨hmem, hcomp⟩, hcut⟩
      exact ⟨hmem, hcomp, fun _ => hcut⟩
    · rintro ⟨hmem, hcomp, hcut⟩
      exact ⟨⟨hmem, hcomp⟩, hcut hd⟩
  · rw [if_neg hd]
    simp only [List.mem_filter]
    constructor
    · rintro ⟨hmem, hcomp⟩
      exact ⟨hmem, hcomp, fun hpos => absurd hpos hd⟩
    · rintro ⟨hmem, hcomp, -⟩
      exact ⟨hmem, hcomp⟩

/-- A concrete filter state with the completed view and a 30 day window. -/
def fsCompletedWit : FilterState :=
  { currentFilter := "completed", currentCategoryFilter := none, currentTagFilter := none,
    sortField := "createdAt", sortDirection := "desc", completedTasksDays := 30 }

/-- A task completed 40 days before the witness clock. -/
def doneOldWit : Task := { baseTask with completed := true, completedAt := some 0 }

/-- A task completed 10 days before the witness clock. -/
def doneNewWit : Task :=
  { baseTask with id := "t2", completed := true, completedAt := some (30 * msPerDay) }

/-- Witness for C6: with a 30 day window and the clock at day 40, the task
completed 40 days ago is excluded and the one completed 10 days ago is kept. -/
theorem applyStatusFilter_completed_mem_witness :
    doneNewWit ∈ applyStatusFilter fsCompletedWit 40 (40 * msPerDay) [doneOldWit, doneNewWit] ∧
    doneOldWit ∉ applyStatusFilter fsCompletedWit 40 (40 * msPerDay) [doneOldWit, doneNewWit] := by
  constructor
  · exact (applyStatusFilter_completed_mem fsCompletedWit 40 (40 * msPerDay)
      [doneOldWit, doneNewWit] rfl doneNewWit).mpr
      ⟨by decide, by decide, fun _ => by decide⟩
  · intro hmem
    rcases (applyStatusFilter_completed_mem fsCompletedWit 40 (40 * msPerDay)
      [doneOldWit, doneNewWit] rfl doneOldWit).mp hmem with ⟨-, -, himp⟩
    have hc := himp (by decide)
    revert hc
    decide

/-- The recurrence types the calculator recognises. -/
def validRecurrenceType (o : Option String) : Bool :=
  match o with
  | none => false
  | some rt => rt == "daily" || rt == "weekly" || rt == "monthly" || rt == "yearly"

/-- C7: the recurrence calculation returns none exactly when the task lacks a
due date or a recognised recurrence type; with both present it always
produces a date. Totality of the Lean function reflects that the source never
throws on this path. -/
theorem calculateNextRecurrenceDate_none_iff (t : Task) :
    calculateNextRecurrenceDate t = none ↔
      t.dueDate = none ∨ validRecurrenceType t.recurrenceType = false := by
  cases hdd : t.dueDate with
  | none => simp [calculateNextRecurrenceDate, hdd]
  | some d =>
    cases hrt : t.recurrenceType with
    | none => simp [calculateNextRecurrenceDate, hdd, hrt, validRecurrenceType]
    | some rt =>
      simp only [calculateNextRecurrenceDate, hdd, hrt]
      by_cases h1 : rt = "daily"
      · subst h1
        rw [if_pos rfl]
        simp [validRecurrenceType]
      by_cases h2 : rt = "weekly"
      · subst h2
        rw [if_neg (by decide), if_pos rfl]
        have hv : validRecurrenceType (some "weekly") = true := rfl
        rw [hv]
        constructor
        · intro h
          exfalso
          split at h
          · exact Option.noConfusion h
          · split at h
            · exact Option.noConfusion h
            · exact Option.noConfusion h
        · rintro (h | h)
          · exact absurd h (Option.some_ne_none d)
          · exact absurd h (by decide)
      by_cases h3 : rt = "monthly"
      · subst h3
        rw [if_neg (by decide), if_neg (by decide), if_pos rfl]
        simp [validRecurrenceType]
      by_cases h4 : rt = "yearly"
      · subst h4
        rw [if_neg (by decide), if_neg (by decide), if_neg (by decide), if_pos rfl]
        simp [validRecurrenceType]
      · rw [if_neg h1, if_neg h2, if_neg h3, if_neg h4]
        simp [validRecurrenceType, h1, h2, h3, h4]

/-- On a linear order, the boolean non-strict comparison is total. -/
theorem decideLe_total [LinearOrder κ] (a b : κ)
    (h : decide (a ≤ b) = false) : decide (b ≤ a) = true :=
  decide_eq_true (le_of_not_le (of_decide_eq_false h))

/-- On a linear order, the boolean non-strict comparison is transitive. -/
theorem decideLe_trans [LinearOrder κ] (a b c : κ)
    (h1 : decide (a ≤ b) = true) (h2 : decide (b ≤ c) = true) : decide (a ≤ c) = true :=
  decide_eq_true (le_trans (of_decide_eq_true h1) (of_decide_eq_true h2))

/-- Sorting by the default comparison produces a pairwise ordered list. -/
theorem pairwise_le_stableSort [LinearOrder κ] (l : List κ) :
    (stableSort (fun a b => decide (a ≤ b)) l).Pairwise (fun x y => x ≤ y) :=
  (pairwise_stableSort _ decideLe_total decideLe_trans l).imp (fun h => of_decide_eq_true h)

/-- On a pairwise ordered list, find? with a threshold test returns the given
minimum among the elements above the threshold. -/
theorem find?_first_gt (c : Int) : ∀ (L : List Int), L.Pairwise (fun x y => x ≤ y) →
    ∀ w₀ ∈ L, c < w₀ → (∀ w ∈ L, c < w → w₀ ≤ w) →
    L.find? (fun w => decide (c < w)) = some w₀ := by
  intro L
  induction L with
  | nil =>
    intro _ w₀ hw
    exact absurd hw (by simp)
  | cons h t ih =>
    intro hpw w₀ hw hc hmin
    rcases List.pairwise_cons.mp hpw with ⟨hh, ht⟩
    by_cases hch : c < h
    · have hwh : w₀ = h := by
        have h1 : w₀ ≤ h := hmin h (List.mem_cons_self h t) hch
        rcases List.mem_cons.mp hw with rfl | hwt
        · rfl
        · exact le_antisymm h1 (hh w₀ hwt)
      subst hwh
      exact List.find?_cons_of_pos t (decide_eq_true hch)
    · have hwt : w₀ ∈ t := by
        rcases List.mem_cons.mp hw with rfl | hwt
        · exact absurd hc hch
        · exact hwt
      rw [List.find?_cons_of_neg t (by simpa using hch)]
      exact ih ht w₀ hwt hc (fun w hw2 hcw => hmin w (List.mem_cons_of_mem h hw2) hcw)

/-- On a pairwise ordered list, the default head is the given minimum. -/
theorem headD_min : ∀ (L : List Int), L.Pairwise (fun x y => x ≤ y) →
    ∀ w₀ ∈ L, (∀ w ∈ L, w₀ ≤ w) → L.headD 0 = w₀ := by
  intro L
  cases L with
  | nil =>
    intro _ w₀ hw
    exact absurd hw (by simp)
  | cons h t =>
    intro hpw w₀ hw hmin
    rcases List.pairwise_cons.mp hpw with ⟨hh, -⟩
    have h1 : w₀ ≤ h := hmin h (List.mem_cons_self h t)
    rcases List.mem_cons.mp hw with rfl | hwt
    · rfl
    · exact le_antisymm (hh w₀ hwt) h1

/-- C2: the weekly rule. With no selected weekdays the next date is a week
later; otherwise, writing c for the weekday of the due date, the date
advances to the smallest selected weekday after c in the same week when one
exists, and wraps to the smallest selected weekday of the next week
otherwise. -/
theorem calculateNextRecurrence_weekly_spec (t : Task) (d : Int)
    (hd : t.dueDate = some d) (hr : t.recurrenceType = some "weekly") :
    ((t.recurrenceData.bind (fun rd => rd.weekdays)).getD [] = [] →
      calculateNextRecurrenceDate t = some (d + 7)) ∧
    (∀ w₀ ∈ (t.recurrenceData.bind (fun rd => rd.weekdays)).getD [],
      getDay d < w₀ →
      (∀ w ∈ (t.recurrenceData.bind (fun rd => rd.weekdays)).getD [], getDay d < w → w₀ ≤ w) →
      calculateNextRecurrenceDate t = some (d + (w₀ - getDay d))) ∧
    (∀ w₀ ∈ (t.recurrenceData.bind (fun rd => rd.weekdays)).getD [],
      (∀ w ∈ (t.recurrenceData.bind (fun rd => rd.weekdays)).getD [], w ≤ getDay d) →
      (∀ w ∈ (t.recurrenceData.bind (fun rd => rd.weekdays)).getD [], w₀ ≤ w) →
      calculateNextRecurrenceDate t = some (d + (7 - getDay d + w₀))) := by
  have hw : calculateNextRecurrenceDate t =
      (if (t.recurrenceData.bind (fun rd => rd.weekdays)).getD [] = [] then some (addDays d 7)
       else
        match (stableSort (fun a b => decide (a ≤ b)) ((t.recurrenceData.bind (fun rd => rd.weekdays)).getD [])).find?
            (fun w => decide (getDay d < w)) with
        | some w => some (addDays d (w - getDay d))
        | none => some (addDays d (7 - getDay d +
            (stableSort (fun a b => decide (a ≤ b)) ((t.recurrenceData.bind (fun rd => rd.weekdays)).getD [])).headD 0))) := by
    simp only [calculateNextRecurrenceDate, hd, hr]
    rw [if_neg (show ¬ ("weekly" : String) = "daily" by decide), if_pos trivial]
  refine ⟨?_, ?_, ?_⟩
  · intro hW
    rw [hw, if_pos hW]
    rfl
  · intro w₀ hmem hgt hmin
    have hWne : (t.recurrenceData.bind (fun rd => rd.weekdays)).getD [] ≠ [] :=
      List.ne_nil_of_mem hmem
    rw [hw, if_neg hWne]
    have hfind := find?_first_gt (getDay d) _ (pairwise_le_stableSort _) w₀
      ((mem_stableSort _ _ w₀).mpr hmem) hgt
      (fun w hw2 hcw => hmin w ((mem_stableSort _ _ w).mp hw2) hcw)
    rw [hfind]
    rfl
  · intro w₀ hmem hle hmin
    have hWne : (t.recurrenceData.bind (fun rd => rd.weekdays)).getD [] ≠ [] :=
      List.ne_nil_of_mem hmem
    rw [hw, if_neg hWne]
    have hnone : (stableSort (fun a b => decide (a ≤ b)) ((t.recurrenceData.bind (fun rd => rd.weekdays)).getD [])).find?
        (fun w => decide (getDay d < w)) = none := by
      rw [List.find?_eq_none]
      intro x hx
      simp only [decide_eq_true_eq]
      exact not_lt_of_le (hle x ((mem_stableSort _ _ x).mp hx))
    rw [hnone]
    have hhead := headD_min _ (pairwise_le_stableSort _) w₀
      ((mem_stableSort _ _ w₀).mpr hmem)
      (fun w hw2 => hmin w ((mem_stableSort _ _ w).mp hw2))
    rw [hhead]
    rfl

/-- The concrete weekly task of the specification scenario: due on a
Wednesday (day number 6, weekday 3) with selected weekdays Monday and
Wednesday. -/
def wednesdayWeeklyTask : Task :=
  { baseTask with dueDate := some 6, isRecurring := true, recurrenceType := some "weekly", recurrenceData := some (RecurrenceData.mk (some [1, 3])) }

/-- Witness for C2: the Wednesday task with weekdays Monday and Wednesday
wraps to the following Monday, five days later. -/
theorem calculateNextRecurrence_weekly_witness :
    calculateNextRecurrenceDate wednesdayWeeklyTask = some 11 := by
  have h := (calculateNextRecurrence_weekly_spec wednesdayWeeklyTask 6 rfl rfl).2.2 1
    (by decide) (by decide) (by decide)
  rw [h]
  decide

/-- Witness for C8: a concrete two-task list with distinct createdAt keys,
where the ascending sort is the reverse of the descending sort. -/
theorem sortTasks_asc_eq_reverse_desc_witness :
    List.Pairwise (fun a b => sortKey "createdAt" [] [] a ≠ sortKey "createdAt" [] [] b)
      [baseTask, { baseTask with id := "t2", createdAt := 5 }] ∧
    sortTasks "createdAt" "asc" [] [] [baseTask, { baseTask with id := "t2", createdAt := 5 }] =
      (sortTasks "createdAt" "desc" [] [] [baseTask, { baseTask with id := "t2", createdAt := 5 }]).reverse :=
  ⟨by decide, sortTasks_asc_eq_reverse_desc "createdAt" [] [] _ (by decide)⟩

/-- The id lookup misses exactly when no list member carries the id. -/
theorem findById_eq_none_iff (l : List Task) (i : String) :
    findById l i = none ↔ ∀ p ∈ l, p.id ≠ i := by
  simp [findById, List.find?_eq_none]

/-- A hit of the id lookup is a member carrying the id. -/
theorem findById_some (l : List Task) (i : String) (p : Task)
    (h : findById l i = some p) : p ∈ l ∧ p.id = i :=
  ⟨List.mem_of_find?_eq_some h, by simpa using List.find?_some h⟩

/-- With no duplicate ids, the lookup of a member id returns that member. -/
theorem findById_eq_some_of_mem : ∀ (l : List Task),
    (l.map Task.id).Nodup → ∀ p ∈ l, findById l p.id = some p := by
  intro l
  induction l with
  | nil =>
    intro _ p hp
    exact absurd hp (by simp)
  | cons x xs ih =>
    intro hnd p hp
    rcases List.mem_cons.mp hp with rfl | hpt
    · unfold findById
      exact List.find?_cons_of_pos xs (by simp)
    · have hxne : x.id ≠ p.id := by
        intro hcon
        have : x.id ∈ xs.map Task.id := hcon ▸ List.mem_map_of_mem Task.id hpt
        exact (List.nodup_cons.mp (by simpa using hnd)).1 this
      unfold findById
      rw [List.find?_cons_of_neg xs (by simp [hxne])]
      exact ih (List.nodup_cons.mp (by simpa using hnd)).2 p hpt

/-- C3: the reconciliation diff before applying incremental updates. Added
tasks are exactly the current ones with a fresh id, removed ids exactly the
snapshot ids that disappeared, modified tasks exactly the common ones whose
tracked fields changed, tag comparison is order-insensitive, and a current
list equal to the snapshot on ids and tracked fields yields an empty diff.
The id-uniqueness hypotheses correspond to the snapshot and current map
being keyed by id. -/
theorem computeTaskDiff_spec (prev curr : List Task)
    (hp : (prev.map Task.id).Nodup) (_hc : (curr.map Task.id).Nodup) :
    (∀ t, t ∈ (computeTaskDiff prev curr).1 ↔ t ∈ curr ∧ ∀ p ∈ prev, p.id ≠ t.id) ∧
    (∀ t, t ∈ (computeTaskDiff prev curr).2.1 ↔
      t ∈ curr ∧ ∃ p ∈ prev, p.id = t.id ∧ hasTaskChanged t p = true) ∧
    (∀ i, i ∈ (computeTaskDiff prev curr).2.2 ↔
      (∃ p ∈ prev, p.id = i) ∧ ∀ t ∈ curr, t.id ≠ i) ∧
    (∀ l₁ l₂ : List String, l₁.Perm l₂ → sortTags l₁ = sortTags l₂) ∧
    ((∀ t ∈ curr, ∃ p ∈ prev, p.id = t.id ∧ hasTaskChanged t p = false) →
     (∀ p ∈ prev, ∃ t ∈ curr, t.id = p.id) →
     (computeTaskDiff prev curr).1 = [] ∧ (computeTaskDiff prev curr).2.1 = [] ∧
       (computeTaskDiff prev curr).2.2 = []) := by
  have hadded : ∀ t, t ∈ (computeTaskDiff prev curr).1 ↔
      t ∈ curr ∧ ∀ p ∈ prev, p.id ≠ t.id := by
    intro t
    simp only [computeTaskDiff, List.mem_filter, Option.isNone_iff_eq_none, findById_eq_none_iff]
  have hmod : ∀ t, t ∈ (computeTaskDiff prev curr).2.1 ↔
      t ∈ curr ∧ ∃ p ∈ prev, p.id = t.id ∧ hasTaskChanged t p = true := by
    intro t
    simp only [computeTaskDiff, List.mem_filter]
    constructor
    · rintro ⟨hmem, hcond⟩
      refine ⟨hmem, ?_⟩
      cases hfd : findById prev t.id with
      | none =>
        rw [hfd] at hcond
        exact absurd hcond (by simp)
      | some q =>
        rw [hfd] at hcond
        rcases findById_some prev t.id q hfd with ⟨hqmem, hqid⟩
        exact ⟨q, hqmem, hqid, hcond⟩
    · rintro ⟨hmem, p, hpmem, hpid, hch⟩
      refine ⟨hmem, ?_⟩
      have : findById prev t.id = some p := hpid ▸ findById_eq_some_of_mem prev hp p hpmem
      rw [this]
      exact hch
  have hrem : ∀ i, i ∈ (computeTaskDiff prev curr).2.2 ↔
      (∃ p ∈ prev, p.id = i) ∧ ∀ t ∈ curr, t.id ≠ i := by
    intro i
    simp only [computeTaskDiff, List.mem_map, List.mem_filter,
      Option.isNone_iff_eq_none, findById_eq_none_iff]
    constructor
    · rintro ⟨p, ⟨hpmem, hnone⟩, rfl⟩
      exact ⟨⟨p, hpmem, rfl⟩, hnone⟩
    · rintro ⟨⟨p, hpmem, hpid⟩, hall⟩
      exact ⟨p, ⟨hpmem, by simpa [hpid] using hall⟩, hpid⟩
  have hsorttags : ∀ l₁ l₂ : List String, l₁.Perm l₂ → sortTags l₁ = sortTags l₂ := by
    intro l₁ l₂ hperm
    refine eq_of_perm_of_pairwise (fun a b => decide (a ≤ b)) _ _
      ((stableSort_perm _ l₁).trans (hperm.trans (stableSort_perm _ l₂).symm))
      (pairwise_stableSort _ decideLe_total decideLe_trans l₁)
      (pairwise_stableSort _ decideLe_total decideLe_trans l₂) ?_
    intro a _ b _ h1 h2
    exact le_antisymm (of_decide_eq_true h1) (of_decide_eq_true h2)
  refine ⟨hadded, hmod, hrem, hsorttags, ?_⟩
  intro hsame hall
  refine ⟨?_, ?_, ?_⟩
  · rw [List.eq_nil_iff_forall_not_mem]
    intro t ht
    rcases (hadded t).mp ht with ⟨hmem, hfresh⟩
    rcases hsame t hmem with ⟨p, hpmem, hpid, -⟩
    exact hfresh p hpmem hpid
  · rw [List.eq_nil_iff_forall_not_mem]
    intro t ht
    rcases (hmod t).mp ht with ⟨hmem, p, hpmem, hpid, hch⟩
    rcases hsame t hmem with ⟨q, hqmem, hqid, hqch⟩
    have : findById prev t.id = some p := hpid ▸ findById_eq_some_of_mem prev hp p hpmem
    have hq : findById prev t.id = some q := hqid ▸ findById_eq_some_of_mem prev hp q hqmem
    rw [this] at hq
    injection hq with hq
    rw [hq] at hch
    rw [hch] at hqch
    exact Bool.noConfusion hqch
  · rw [List.eq_nil_iff_forall_not_mem]
    intro i hi
    rcases (hrem i).mp hi with ⟨⟨p, hpmem, hpid⟩, hgone⟩
    rcases hall p hpmem with ⟨t, htmem, htid⟩
    exact hgone t htmem (htid.trans hpid)

/-- Witness for C3: a current list carrying the snapshot task with only
untracked fields changed produces an empty diff. -/
theorem computeTaskDiff_spec_witness :
    (computeTaskDiff [baseTask] [{ baseTask with createdAt := 99 }]).1 = [] ∧
    (computeTaskDiff [baseTask] [{ baseTask with createdAt := 99 }]).2.1 = [] ∧
    (computeTaskDiff [baseTask] [{ baseTask with createdAt := 99 }]).2.2 = [] :=
  (computeTaskDiff_spec [baseTask] [{ baseTask with createdAt := 99 }]
    (by decide) (by decide)).2.2.2.2 (by decide) (by decide)

/-- A second concrete task, added relative to the snapshot in the C4
scenario. -/
def addedTaskWit : Task := { baseTask with id := "t2", createdAt := 1 }

/-- Counterexample for C4: when patch application throws, the inner handler
rebuilds from only the added and modified tasks, not from the entire current
list, and the snapshot cache is set to the current map instead of being
cleared. -/
theorem renderTasks_patch_throw_cex :
    renderTasks false true [baseTask] [baseTask, addedTaskWit] =
      (RenderAction.fullRender [addedTaskWit], [baseTask, addedTaskWit]) ∧
    RenderAction.fullRender [addedTaskWit] ≠
      RenderAction.fullRender [baseTask, addedTaskWit] ∧
    ([baseTask, addedTaskWit] : List Task) ≠ [] := by
  decide

/-- C4 amended: a throw during diff computation triggers the outer handler,
which rebuilds from the entire current list and clears the cache; a throw
during patch application is swallowed by the inner handler, which rebuilds
from only the added and modified tasks, after which the cache still becomes
the current map. -/
theorem renderTasks_failure_modes (cache tasks : List Task) (h : tasks ≠ []) :
    (∀ b, renderTasks true b cache tasks = (RenderAction.fullRender tasks, [])) ∧
    renderTasks false true cache tasks =
      (RenderAction.fullRender
        ((computeTaskDiff cache tasks).1 ++ (computeTaskDiff cache tasks).2.1), tasks) := by
  cases tasks with
  | nil => exact absurd rfl h
  | cons a ts =>
    constructor
    · intro b
      rfl
    · rfl

/-- Witness for C4 amended: the two failure paths at a concrete cache and
current list. -/
theorem renderTasks_failure_modes_witness :
    renderTasks true false [baseTask] [baseTask, addedTaskWit] =
      (RenderAction.fullRender [baseTask, addedTaskWit], []) ∧
    renderTasks false true [baseTask] [baseTask, addedTaskWit] =
      (RenderAction.fullRender
        ((computeTaskDiff [baseTask] [baseTask, addedTaskWit]).1 ++
          (computeTaskDiff [baseTask] [baseTask, addedTaskWit]).2.1),
        [baseTask, addedTaskWit]) :=
  ⟨(renderTasks_failure_modes [baseTask] [baseTask, addedTaskWit] (by decide)).1 false,
   (renderTasks_failure_modes [baseTask] [baseTask, addedTaskWit] (by decide)).2⟩

/-- The child task generateNextRecurringTask builds from a parent, a fresh id
and a creation timestamp, given the computed next date. -/
def recurChild (r : Task) (newId : String) (createdAt nd : Int) : Task :=
  { r with
    id := newId, dueDate := some nd, completed := false,
    createdAt := createdAt, parentRecurringId := some r.id }

/-- A root daily recurring task, completed, due in the past (day 9, with the
scheduling clock at day 10). -/
def pastDailyRoot : Task :=
  { baseTask with dueDate := some 9, completed := true, isRecurring := true, recurrenceType := some "daily" }

/-- Id supply for the first scheduling pass of the counterexample. -/
def idsA : Nat → String := fun n => "a-" ++ Nat.repr n

/-- Id supply for the second scheduling pass of the counterexample. -/
def idsB : Nat → String := fun n => "b-" ++ Nat.repr n

/-- Counterexample for C5: a completed past-due daily root generates a child
on the first pass, and because that child is not due in the future, a second
pass generates another child for the same root, so the pass is not
idempotent. -/
theorem recurringPass_not_idempotent_cex :
    (checkAndGenerateRecurringTasks 10 idsA 99 [pastDailyRoot]).length = 2 ∧
    (checkAndGenerateRecurringTasks 10 idsB 99
      (checkAndGenerateRecurringTasks 10 idsA 99 [pastDailyRoot])).length = 3 ∧
    ((checkAndGenerateRecurringTasks 10 idsB 99
      (checkAndGenerateRecurringTasks 10 idsA 99 [pastDailyRoot])).filter
        (fun t => t.parentRecurringId == some "t1")).length = 2 := by
  decide

/-- C5 amended: a completed today-or-earlier root alone in the store appends
exactly one child carrying the parent back-reference; a second pass appends
nothing when the generated child is due strictly after today, and appends a
second child when it is due today or earlier. -/
theorem recurringPass_generation (r : Task) (today nowTs nowTs2 : Int)
    (freshIds freshIds2 : Nat → String) (nd : Int)
    (hroot : r.isRecurring = true) (hpar : r.parentRecurringId = none)
    (hcomp : r.completed = true) (hdue : r.dueDate.getD 0 ≤ today)
    (hcalc : calculateNextRecurrenceDate r = some nd) :
    checkAndGenerateRecurringTasks today freshIds nowTs [r] =
      [r, recurChild r (freshIds 0) nowTs nd] ∧
    (today < nd →
      checkAndGenerateRecurringTasks today freshIds2 nowTs2
        [r, recurChild r (freshIds 0) nowTs nd] =
      [r, recurChild r (freshIds 0) nowTs nd]) ∧
    (nd ≤ today →
      checkAndGenerateRecurringTasks today freshIds2 nowTs2
        [r, recurChild r (freshIds 0) nowTs nd] =
      [r, recurChild r (freshIds 0) nowTs nd, recurChild r (freshIds2 0) nowTs2 nd]) := by
  have hnext : ∀ i c, generateNextRecurringTask r i c = some (recurChild r i c nd) := by
    intro i c
    unfold generateNextRecurringTask
    rw [hcalc]
    rfl
  have hchildskip : ∀ (acc : List Task) (f : Nat → String) (c : Int) (n : Nat),
      recurringPassGo today f c [recurChild r (freshIds 0) nowTs nd] acc n = acc := by
    intro acc f c n
    unfold recurringPassGo
    rw [if_neg (by rintro ⟨-, hcon⟩; exact Option.noConfusion (show some r.id = none from hcon))]
    rfl
  refine ⟨?_, ?_, ?_⟩
  · unfold checkAndGenerateRecurringTasks
    unfold recurringPassGo
    rw [if_pos ⟨hroot, hpar⟩, if_pos (Or.inl ⟨hcomp, hdue⟩),
      if_neg (show ¬ hasNextOccurrence [r] today r.id = true by simp [hasNextOccurrence, hpar]),
      hnext]
    unfold recurringPassGo
    rfl
  · intro hfut
    unfold checkAndGenerateRecurringTasks
    unfold recurringPassGo
    rw [if_pos ⟨hroot, hpar⟩, if_pos (Or.inl ⟨hcomp, hdue⟩), if_pos]
    · exact hchildskip _ _ _ _
    · simp [hasNextOccurrence, hpar, recurChild, hfut]
  · intro hpast
    unfold checkAndGenerateRecurringTasks
    unfold recurringPassGo
    rw [if_pos ⟨hroot, hpar⟩, if_pos (Or.inl ⟨hcomp, hdue⟩),
      if_neg (show ¬ hasNextOccurrence [r, recurChild r (freshIds 0) nowTs nd] today r.id = true by
        simp [hasNextOccurrence, hpar, recurChild, not_lt_of_le hpast]),
      hnext]
    exact hchildskip _ _ _ _

/-- A root weekly recurring task, completed, due in the past, whose computed
next occurrence (a week later) lies in the future. -/
def pastWeeklyRoot : Task :=
  { baseTask with dueDate := some 9, completed := true, isRecurring := true, recurrenceType := some "weekly" }

/-- Witness for C5 amended: the weekly root generates one child due on day
16, and a second pass leaves the store unchanged because that child is due
after day 10. -/
theorem recurringPass_generation_witness :
    checkAndGenerateRecurringTasks 10 idsA 99 [pastWeeklyRoot] =
      [pastWeeklyRoot, recurChild pastWeeklyRoot (idsA 0) 99 16] ∧
    checkAndGenerateRecurringTasks 10 idsB 98
      [pastWeeklyRoot, recurChild pastWeeklyRoot (idsA 0) 99 16] =
      [pastWeeklyRoot, recurChild pastWeeklyRoot (idsA 0) 99 16] := by
  have h := recurringPass_generation pastWeeklyRoot 10 99 98 idsA idsB 16
    rfl rfl rfl (by decide) (by decide)
  exact ⟨h.1, h.2.1 (by decide)⟩

/-- The replacement-by-id search misses exactly when no task carries the
target id. -/
theorem updateTaskGo_none_iff (i : String) (d : TaskData) : ∀ (l : List Task),
    updateTaskGo i d l = none ↔ ∀ t ∈ l, t.id ≠ i := by
  intro l
  induction l with
  | nil => simp [updateTaskGo]
  | cons t ts ih =>
    unfold updateTaskGo
    by_cases h : t.id = i
    · rw [if_pos h]
      exact iff_of_false (fun hc => Option.noConfusion hc)
        (fun hall => hall t (List.mem_cons_self t ts) h)
    · rw [if_neg h, Option.map_eq_none', ih, List.forall_mem_cons]
      exact (and_iff_right h).symm

/-- A successful replacement splits the list at the first task with the
target id and substitutes the merged task there, leaving everything else in
place. -/
theorem updateTaskGo_some_ex (i : String) (d : TaskData) : ∀ (l l2 : List Task),
    updateTaskGo i d l = some l2 →
    ∃ pre t post, l = pre ++ t :: post ∧ t.id = i ∧ (∀ p ∈ pre, p.id ≠ i) ∧
      l2 = pre ++ mergeTask t d i :: post := by
  intro l
  induction l with
  | nil =>
    intro l2 h
    exact absurd h (by simp [updateTaskGo])
  | cons t ts ih =>
    intro l2 h
    unfold updateTaskGo at h
    by_cases ht : t.id = i
    · rw [if_pos ht] at h
      injection h with h
      exact ⟨[], t, ts, by simp, ht, by simp, h.symm⟩
    · rw [if_neg ht] at h
      rcases Option.map_eq_some'.mp h with ⟨l3, h3, hl2⟩
      rcases ih l3 h3 with ⟨pre, u, post, hsplit, hid, hpre, hres⟩
      refine ⟨t :: pre, u, post, by simp [hsplit], hid, ?_, by simp [← hl2, hres]⟩
      intro p hp
      rcases List.mem_cons.mp hp with rfl | hp2
      · exact ht
      · exact hpre p hp2

/-- C10: updateTask returns false and leaves the list untouched when the id
is absent; otherwise it replaces exactly the first task with that id by the
merged task, leaving every other task unchanged; and the merged task always
keeps the target id, whatever id the incoming data carries. -/
theorem updateTask_spec (tasks : List Task) (taskId : String) (d : TaskData) :
    ((updateTask tasks taskId d).1 = false ↔ ∀ t ∈ tasks, t.id ≠ taskId) ∧
    ((updateTask tasks taskId d).1 = false → (updateTask tasks taskId d).2 = tasks) ∧
    ((updateTask tasks taskId d).1 = true →
      ∃ pre t post, tasks = pre ++ t :: post ∧ t.id = taskId ∧
        (∀ p ∈ pre, p.id ≠ taskId) ∧
        (updateTask tasks taskId d).2 = pre ++ mergeTask t d taskId :: post) ∧
    (∀ old : Task, (mergeTask old d taskId).id = taskId) := by
  unfold updateTask
  cases hgo : updateTaskGo taskId d tasks with
  | none =>
    refine ⟨?_, fun _ => rfl, ?_, fun old => rfl⟩
    · exact iff_of_true rfl ((updateTaskGo_none_iff taskId d tasks).mp hgo)
    · intro hcon
      exact absurd hcon (by simp)
  | some l2 =>
    refine ⟨?_, ?_, ?_, fun old => rfl⟩
    · refine iff_of_false (fun hcon => Bool.noConfusion hcon) ?_
      intro hall
      rw [(updateTaskGo_none_iff taskId d tasks).mpr hall] at hgo
      exact Option.noConfusion hgo
    · intro hcon
      exact absurd hcon (by simp)
    · intro _
      rcases updateTaskGo_some_ex taskId d tasks l2 hgo with ⟨pre, t, post, hsplit, hid, hpre, hres⟩
      exact ⟨pre, t, post, hsplit, hid, hpre, hres⟩

/-- Witness for C10: a missing id leaves a concrete list unchanged, and the
merge discards a conflicting id in the incoming data. -/
theorem updateTask_spec_witness :
    (updateTask [baseTask] "zzz" { title := some "x" }).1 = false ∧
    (updateTask [baseTask] "zzz" { title := some "x" }).2 = [baseTask] ∧
    (mergeTask baseTask { id := some "evil" } "t1").id = "t1" := by
  have h := updateTask_spec [baseTask] "zzz" { title := some "x" }
  have hfalse := h.1.mpr (by decide)
  exact ⟨hfalse, h.2.1 hfalse, (updateTask_spec [] "t1" { id := some "evil" }).2.2.2 baseTask⟩

/-- Counterexample for C9: TaskController.updateTask applies the incoming
tag list verbatim, so a four-tag update leaves the store with a task holding
four tag references. -/
theorem tagInvariant_update_cex :
    ((updateTask [baseTask] "t1" { tags := some ["a", "b", "c", "d"] }).2.all
      (fun t => decide (t.tags.length ≤ 3))) = false := by
  decide

/-- C9 amended: Task.addTag preserves the three-tag bound and refuses a
duplicate or a fourth tag; validation flags any task holding more than three
tags; and the raw addTask and updateTask operations preserve the store-wide
bound only under the precondition that the incoming data carries at most
three tags, which is what the validation layer ensures before they run. -/
theorem tagInvariant_amended :
    (∀ (t : Task) (g : String), t.tags.length ≤ 3 → (addTag t g).1.tags.length ≤ 3) ∧
    (∀ (t : Task) (g : String), (t.tags.contains g = true ∨ 3 ≤ t.tags.length) →
      addTag t g = (t, false)) ∧
    (∀ t : Task, (validateTask t).1 = true → t.tags.length ≤ 3) ∧
    (∀ (tasks : List Task) (taskId : String) (d : TaskData),
      (∀ t ∈ tasks, t.tags.length ≤ 3) →
      (∀ l, d.tags = some l → l.length ≤ 3) →
      ∀ t ∈ (updateTask tasks taskId d).2, t.tags.length ≤ 3) ∧
    (∀ (tasks : List Task) (d : TaskData) (newId : String) (ca : Int),
      (∀ t ∈ tasks, t.tags.length ≤ 3) →
      (∀ l, d.tags = some l → l.length ≤ 3) →
      ∀ t ∈ (addTask tasks d newId ca).2, t.tags.length ≤ 3) := by
  refine ⟨?_, ?_, ?_, ?_, ?_⟩
  · intro t g hb
    unfold addTag
    by_cases hcond : t.tags.contains g = false ∧ t.tags.length < 3
    · have hlt := hcond.2
      rw [if_pos hcond]
      simp only [List.length_append, List.length_singleton]
      omega
    · rw [if_neg hcond]
      exact hb
  · intro t g hor
    unfold addTag
    rw [if_neg]
    rintro ⟨hc, hl⟩
    rcases hor with hin | hge
    · rw [hin] at hc
      exact Bool.noConfusion hc
    · exact absurd hl (not_lt_of_le hge)
  · intro t hvalid
    by_contra hlen
    rw [not_le] at hlen
    have hmem : "Você pode selecionar no máximo 3 tags por tarefa." ∈ validateTaskErrors t := by
      unfold validateTaskErrors
      refine List.mem_append.mpr (Or.inl (List.mem_append.mpr (Or.inr ?_)))
      rw [if_pos hlen]
      exact List.mem_singleton.mpr rfl
    have hne : validateTaskErrors t ≠ [] := List.ne_nil_of_mem hmem
    have : validateTaskErrors t = [] := by
      have h1 := hvalid
      unfold validateTask at h1
      simpa using h1
    exact hne this
  · intro tasks taskId d hstore hdata t ht
    unfold updateTask at ht
    rcases hgo : updateTaskGo taskId d tasks with - | l2
    · rw [hgo] at ht
      exact hstore t ht
    · rw [hgo] at ht
      rcases updateTaskGo_some_ex taskId d tasks l2 hgo with ⟨pre, u, post, hsplit, -, -, hres⟩
      rw [hres] at ht
      rcases List.mem_append.mp ht with hplace | hplace
      · exact hstore t (hsplit ▸ List.mem_append.mpr (Or.inl hplace))
      · rcases List.mem_cons.mp hplace with rfl | hplace2
        · show (mergeTask u d taskId).tags.length ≤ 3
          unfold mergeTask
          cases hdt : d.tags with
          | none =>
            simp only [hdt, Option.getD_none]
            exact hstore u (hsplit ▸ List.mem_append.mpr (Or.inr (List.mem_cons_self u post)))
          | some l =>
            simp only [hdt, Option.getD_some]
            exact hdata l hdt
        · exact hstore t (hsplit ▸ List.mem_append.mpr (Or.inr (List.mem_cons_of_mem u hplace2)))
  · intro tasks d newId ca hstore hdata t ht
    unfold addTask at ht
    by_cases hblank : (buildTask d newId ca).title.trim = ""
    · rw [if_pos hblank] at ht
      exact hstore t ht
    · rw [if_neg hblank] at ht
      rcases List.mem_append.mp ht with hplace | hplace
      · exact hstore t hplace
      · rw [List.mem_singleton.mp hplace]
        show (buildTask d newId ca).tags.length ≤ 3
        unfold buildTask
        cases hdt : d.tags with
        | none => simp [hdt]
        | some l =>
          simp only [hdt, Option.getD_some]
          exact hdata l hdt

/-- Witness for C9 amended: a concrete refusal of a fourth tag and a
concrete bounded update that keeps the store within the bound. -/
theorem tagInvariant_amended_witness :
    addTag { baseTask with tags := ["a", "b", "c"] } "d" =
      ({ baseTask with tags := ["a", "b", "c"] }, false) ∧
    ((updateTask [baseTask] "t1" { tags := some ["a", "b"] }).2.all
      (fun t => decide (t.tags.length ≤ 3))) = true := by
  constructor
  · exact tagInvariant_amended.2.1 _ "d" (Or.inr (by decide))
  · rw [List.all_eq_true]
    intro t ht
    have hb := tagInvariant_amended.2.2.2.1 [baseTask] "t1" { tags := some ["a", "b"] }
      (by decide) (by intro l hl; injection hl with hl; rw [← hl]; decide) t ht
    exact decide_eq_true hb

end Planno
